import Mathlib

/-!
Verification of the dose-scheduler / injection-rotation web app's core logic.

The source is a TypeScript single-page app.  We embed its pure logic shallowly:
  - ISO timestamp strings are represented by their parsed epoch value in
    milliseconds (`Int`), matching `new Date(iso).getTime()`;
  - `Date.now()` becomes an explicit `now : Int` parameter;
  - `Array.prototype.sort(cmp)` is embedded as `jsSort`, a stable insertion
    sort.  ECMAScript requires `sort` to produce a stable, comparator-sorted
    permutation; for a consistent comparator that output is unique, so any
    stable sort is extensionally the source's sort.  We prove `jsSort` is a
    permutation, sorted, and places earlier-listed elements first on ties.
  - plain JS objects used as string-keyed maps become `String → Option _`
    functions or association lists, with JS falsiness modelled explicitly.
-/

namespace DoseApp

/-- Body view of an injection spot (source: `type Spot = { ... view: "front" | "back" ... }`). -/
inductive View
  | front
  | back
deriving DecidableEq, Repr

/-- Muscle group of an injection spot (source: `Spot.group`). -/
inductive SpotGroup
  | abdomen
  | thigh
  | arm
  | glute
deriving DecidableEq, Repr

/-- An injection site (source: `type Spot` on the rotation page). -/
structure Spot where
  id : String
  label : String
  view : View
  group : SpotGroup
deriving DecidableEq, Repr

/-- The static spot catalog (source: `const SPOTS` on the rotation page). -/
def SPOTS : List Spot :=
  [ ⟨"f_abd_L", "Abdomen — Left", View.front, SpotGroup.abdomen⟩,
    ⟨"f_abd_R", "Abdomen — Right", View.front, SpotGroup.abdomen⟩,
    ⟨"f_thigh_L", "Thigh — Left", View.front, SpotGroup.thigh⟩,
    ⟨"f_thigh_R", "Thigh — Right", View.front, SpotGroup.thigh⟩,
    ⟨"f_arm_L", "Upper arm — Left", View.front, SpotGroup.arm⟩,
    ⟨"f_arm_R", "Upper arm — Right", View.front, SpotGroup.arm⟩,
    ⟨"b_glute_L", "Glute — Left", View.back, SpotGroup.glute⟩,
    ⟨"b_glute_R", "Glute — Right", View.back, SpotGroup.glute⟩,
    ⟨"b_arm_L", "Upper arm (back) — Left", View.back, SpotGroup.arm⟩,
    ⟨"b_arm_R", "Upper arm (back) — Right", View.back, SpotGroup.arm⟩,
    ⟨"b_thigh_L", "Thigh (back) — Left", View.back, SpotGroup.thigh⟩,
    ⟨"b_thigh_R", "Thigh (back) — Right", View.back, SpotGroup.thigh⟩ ]

/-- Milliseconds in a day, the divisor `1000 * 60 * 60 * 24` from `daysAgoFromISO`. -/
def dayMs : Int := 1000 * 60 * 60 * 24

/-- Source (rotation page):
```
function daysAgoFromISO(iso?: string) {
  if (!iso) return 9999;
  const t = new Date(iso).getTime();
  const diff = Date.now() - t;
  return Math.floor(diff / (1000 * 60 * 60 * 24));
}
```
An absent (or JS-falsy) timestamp yields the sentinel `9999`; otherwise the
floor of the millisecond difference divided by a day (`Math.floor` on a
possibly negative quotient is floor division, `Int.fdiv`). -/
def daysAgoFromISO (now : Int) (last : Option Int) : Int :=
  match last with
  | none => 9999
  | some t => (now - t).fdiv dayMs

/-- One step of the stable insertion sort modelling `Array.prototype.sort`:
`x` is placed before the first `y` that `x` need not follow (`cmp x y ≤ 0`);
on ties (`cmp x y = 0`) the element already being inserted — which came
earlier in the original array — goes first, as stability requires. -/
def insertCmp (cmp : α → α → Int) (x : α) : List α → List α
  | [] => [x]
  | y :: ys => if cmp x y ≤ 0 then x :: y :: ys else y :: insertCmp cmp x ys

/-- Model of `arr.sort(cmp)` (see the file docstring): a stable sort by the
JS comparator `cmp`, where `cmp a b < 0` puts `a` before `b`. -/
def jsSort (cmp : α → α → Int) : List α → List α
  | [] => []
  | x :: xs => insertCmp cmp x (jsSort cmp xs)

/-- An element of the `candidates` array built inside `recommended`:
`{ s, days }` pairing a spot with its staleness in whole days. -/
structure Candidate where
  s : Spot
  days : Int
deriving DecidableEq, Repr

/-- Source (rotation page):
```
const recommended = useMemo(() => {
  const candidates = spotsForView.map((s) => {
    const last = lastUsedBySpot[s.id];
    const days = daysAgoFromISO(last);
    return { s, days };
  });
  candidates.sort((a, b) => b.days - a.days);
  return candidates[0] ?? null;
}, [spotsForView, lastUsedBySpot]);
```
`lastUsed` is the slot-id to last-used-timestamp mapping (absent if never
used), `now` the current time. -/
def recommended (spotsForView : List Spot) (lastUsed : String → Option Int)
    (now : Int) : Option Candidate :=
  let candidates := spotsForView.map fun s =>
    Candidate.mk s (daysAgoFromISO now (lastUsed s.id))
  (jsSort (fun a b => b.days - a.days) candidates).head?

/-- Specification-side helper: the first element of the list attaining the
maximal key, described by the same recurrence the descending stable sort's
head satisfies. -/
def firstMaxBy (key : α → Int) : List α → Option α
  | [] => none
  | x :: xs =>
    match firstMaxBy key xs with
    | none => some x
    | some y => if key y ≤ key x then some x else some y

theorem insertCmp_ne_nil (cmp : α → α → Int) (x : α) (l : List α) :
    insertCmp cmp x l ≠ [] := by
  cases l with
  | nil => simp [insertCmp]
  | cons y ys =>
    simp only [insertCmp]
    split <;> simp

theorem head_insertCmp (cmp : α → α → Int) (x : α) (l : List α) :
    (insertCmp cmp x l).head? =
      match l with
      | [] => some x
      | y :: _ => if cmp x y ≤ 0 then some x else some y := by
  cases l with
  | nil => rfl
  | cons y ys =>
    simp only [insertCmp]
    split <;> rfl

theorem jsSort_eq_nil_iff (cmp : α → α → Int) (l : List α) :
    jsSort cmp l = [] ↔ l = [] := by
  cases l with
  | nil => simp [jsSort]
  | cons x xs =>
    simp only [jsSort]
    exact ⟨fun h => absurd h (insertCmp_ne_nil cmp x _), fun h => by cases h⟩

/-- The head of the stable descending sort is the first maximal element. -/
theorem head_jsSort_desc (key : α → Int) (l : List α) :
    (jsSort (fun a b => key b - key a) l).head? = firstMaxBy key l := by
  induction l with
  | nil => rfl
  | cons x xs ih =>
    simp only [jsSort, firstMaxBy]
    rw [head_insertCmp]
    cases hs : jsSort (fun a b => key b - key a) xs with
    | nil =>
      have hnone : firstMaxBy key xs = none := by rw [← ih, hs]; rfl
      rw [hnone]
    | cons y ys =>
      have hsome : firstMaxBy key xs = some y := by rw [← ih, hs]; rfl
      rw [hsome]
      show (if key y - key x ≤ 0 then some x else some y) =
        if key y ≤ key x then some x else some y
      by_cases h : key y ≤ key x
      · rw [if_pos (by omega), if_pos h]
      · rw [if_neg (by omega), if_neg h]

theorem firstMaxBy_eq_none_iff (key : α → Int) (l : List α) :
    firstMaxBy key l = none ↔ l = [] := by
  cases l with
  | nil => simp [firstMaxBy]
  | cons x xs =>
    simp only [firstMaxBy]
    constructor
    · intro h
      exfalso
      cases hs : firstMaxBy key xs with
      | none => rw [hs] at h; exact Option.noConfusion h
      | some y =>
        rw [hs] at h
        have h' : (if key y ≤ key x then some x else some y) = none := h
        by_cases hk : key y ≤ key x
        · rw [if_pos hk] at h'; exact Option.noConfusion h'
        · rw [if_neg hk] at h'; exact Option.noConfusion h'
    · intro h; cases h

/-- Every element's key is bounded by the key of `firstMaxBy`. -/
theorem firstMaxBy_max (key : α → Int) (l : List α) (m : α)
    (h : firstMaxBy key l = some m) : ∀ a ∈ l, key a ≤ key m := by
  induction l generalizing m with
  | nil => intro a ha; cases ha
  | cons x xs ih =>
    intro a ha
    simp only [firstMaxBy] at h
    cases hs : firstMaxBy key xs with
    | none =>
      rw [hs] at h
      have hxs : xs = [] := (firstMaxBy_eq_none_iff key xs).mp hs
      subst hxs
      have h' : some x = some m := h
      cases Option.some.inj h'
      rcases List.mem_singleton.mp ha with rfl
      exact le_refl _
    | some y =>
      rw [hs] at h
      have h' : (if key y ≤ key x then some x else some y) = some m := h
      have hy : ∀ b ∈ xs, key b ≤ key y := ih y hs
      by_cases hk : key y ≤ key x
      · rw [if_pos hk] at h'
        cases Option.some.inj h'
        rcases List.mem_cons.mp ha with rfl | hmem
        · exact le_refl _
        · exact le_trans (hy a hmem) hk
      · rw [if_neg hk] at h'
        cases Option.some.inj h'
        rcases List.mem_cons.mp ha with rfl | hmem
        · omega
        · exact hy a hmem

/-- The function `firstMaxBy` returns the first maximal element: the list splits around it with
strictly smaller keys before and no larger key after. -/
theorem firstMaxBy_split (key : α → Int) (l : List α) (m : α)
    (h : firstMaxBy key l = some m) :
    ∃ pre post, l = pre ++ m :: post ∧ (∀ a ∈ pre, key a < key m) ∧
      ∀ a ∈ post, key a ≤ key m := by
  induction l generalizing m with
  | nil => exact absurd h (by simp [firstMaxBy])
  | cons x xs ih =>
    simp only [firstMaxBy] at h
    cases hs : firstMaxBy key xs with
    | none =>
      rw [hs] at h
      have h' : some x = some m := h
      cases Option.some.inj h'
      have hxs : xs = [] := (firstMaxBy_eq_none_iff key xs).mp hs
      subst hxs
      refine ⟨[], [], rfl, ?_, ?_⟩
      · intro a ha; cases ha
      · intro a ha; cases ha
    | some y =>
      rw [hs] at h
      have h' : (if key y ≤ key x then some x else some y) = some m := h
      by_cases hk : key y ≤ key x
      · rw [if_pos hk] at h'
        cases Option.some.inj h'
        refine ⟨[], xs, rfl, ?_, ?_⟩
        · intro a ha; cases ha
        intro a ha
        have := firstMaxBy_max key xs y hs a ha
        omega
      · rw [if_neg hk] at h'
        cases Option.some.inj h'
        obtain ⟨pre, post, heq, hpre, hpost⟩ := ih m hs
        refine ⟨x :: pre, post, by rw [heq, List.cons_append], ?_, hpost⟩
        intro a ha
        rcases List.mem_cons.mp ha with rfl | hmem
        · omega
        · exact hpre a hmem

/-- The recommendation is the head of the descending stable sort, hence the
first maximal-staleness candidate. -/
theorem recommended_eq_firstMaxBy (spots : List Spot)
    (lastUsed : String → Option Int) (now : Int) :
    recommended spots lastUsed now =
      firstMaxBy (fun c : Candidate => c.days)
        (spots.map fun s => Candidate.mk s (daysAgoFromISO now (lastUsed s.id))) := by
  unfold recommended
  exact head_jsSort_desc (fun c : Candidate => c.days) _

/-- C1 (amended): for a non-empty candidate list, the recommendation is a
candidate of maximal computed staleness, where a never-used spot counts as
exactly `9999` days; consequently the chosen spot can only be a used one in
the presence of a never-used spot if its own elapsed whole days are at least
`9999`. -/
theorem recommended_max_staleness (spots : List Spot)
    (lastUsed : String → Option Int) (now : Int) (h : spots ≠ []) :
    ∃ m : Candidate, recommended spots lastUsed now = some m ∧
      m ∈ (spots.map fun s => Candidate.mk s (daysAgoFromISO now (lastUsed s.id))) ∧
      (∀ s ∈ spots, daysAgoFromISO now (lastUsed s.id) ≤ m.days) ∧
      ∀ s ∈ spots, lastUsed s.id = none →
        ∀ t, lastUsed m.s.id = some t → 9999 ≤ (now - t).fdiv dayMs := by
  set cs : List Candidate :=
    spots.map fun s => Candidate.mk s (daysAgoFromISO now (lastUsed s.id)) with hcs
  have hcs_ne : cs ≠ [] := by
    intro hnil
    exact h (List.map_eq_nil_iff.mp (hcs ▸ hnil))
  cases hm : firstMaxBy (fun c : Candidate => c.days) cs with
  | none => exact absurd ((firstMaxBy_eq_none_iff _ _).mp hm) hcs_ne
  | some m =>
    have hrec : recommended spots lastUsed now = some m := by
      rw [recommended_eq_firstMaxBy, ← hcs, hm]
    have hmax := firstMaxBy_max (fun c : Candidate => c.days) cs m hm
    obtain ⟨pre, post, heq, _, _⟩ := firstMaxBy_split (fun c : Candidate => c.days) cs m hm
    have hmem : m ∈ cs := by rw [heq]; exact List.mem_append_right _ (List.mem_cons_self _ _)
    have hdays : m.days = daysAgoFromISO now (lastUsed m.s.id) := by
      rcases List.mem_map.mp (hcs ▸ hmem) with ⟨s₀, _, hs₀⟩
      rw [← hs₀]
    refine ⟨m, hrec, hmem, ?_, ?_⟩
    · intro s hs
      exact hmax _ (List.mem_map.mpr ⟨s, hs, rfl⟩)
    · intro s hs hnone t ht
      have h₁ : daysAgoFromISO now (lastUsed s.id) ≤ m.days :=
        hmax _ (List.mem_map.mpr ⟨s, hs, rfl⟩)
      rw [hnone] at h₁
      simp only [daysAgoFromISO] at h₁
      rw [hdays, ht] at h₁
      simpa [daysAgoFromISO] using h₁

/-- A two-spot candidate list used to instantiate the rotation theorems. -/
def spotA : Spot := ⟨"A", "Spot A", View.front, SpotGroup.abdomen⟩

/-- Second concrete spot for instantiating the rotation theorems. -/
def spotB : Spot := ⟨"B", "Spot B", View.front, SpotGroup.abdomen⟩

/-- A last-used mapping in which spot `A` was used at epoch `0` and every
other spot is unused. -/
def luOnlyA : String → Option Int := fun id => if id = "A" then some 0 else none

/-- Witness for `recommended_max_staleness` at the spec's own example: spot A
used one day ago, spot B never used. -/
theorem recommended_max_staleness_witness :
    ∃ m : Candidate, recommended [spotA, spotB] luOnlyA dayMs = some m ∧
      m ∈ ([spotA, spotB].map fun s =>
          Candidate.mk s (daysAgoFromISO dayMs (luOnlyA s.id))) ∧
      (∀ s ∈ [spotA, spotB],
        daysAgoFromISO dayMs (luOnlyA s.id) ≤ m.days) ∧
      ∀ s ∈ [spotA, spotB], luOnlyA s.id = none →
        ∀ t, luOnlyA m.s.id = some t → 9999 ≤ (dayMs - t).fdiv dayMs :=
  recommended_max_staleness [spotA, spotB] luOnlyA dayMs (by decide)

/-- C1 counterexample: spot A was used 10000 days before `now`, spot B was
never used, yet the recommendation is A — the sentinel `9999` for "never
used" is outranked by a sufficiently old real use, contradicting "a
never-used slot always outranks every slot that has been used, however long
ago it was used". -/
theorem recommended_never_used_outranked :
    recommended [spotA, spotB] luOnlyA (10000 * dayMs) = some ⟨spotA, 10000⟩ ∧
    luOnlyA spotB.id = none ∧ luOnlyA spotA.id = some 0 := by
  refine ⟨?_, rfl, rfl⟩
  decide

/-- C2: the recommendation is the first candidate, in the caller-supplied
candidate ordering, attaining the maximal staleness: the candidate list
splits as `pre ++ m :: post` with every candidate in `pre` strictly less
stale than `m` and none in `post` more stale. -/
theorem recommended_tie_break (spots : List Spot)
    (lastUsed : String → Option Int) (now : Int) (h : spots ≠ []) :
    ∃ (pre : List Candidate) (m : Candidate) (post : List Candidate),
      recommended spots lastUsed now = some m ∧
      (spots.map fun s => Candidate.mk s (daysAgoFromISO now (lastUsed s.id))) =
        pre ++ m :: post ∧
      (∀ c ∈ pre, c.days < m.days) ∧ ∀ c ∈ post, c.days ≤ m.days := by
  set cs : List Candidate :=
    spots.map fun s => Candidate.mk s (daysAgoFromISO now (lastUsed s.id)) with hcs
  have hcs_ne : cs ≠ [] := by
    intro hnil
    exact h (List.map_eq_nil_iff.mp (hcs ▸ hnil))
  cases hm : firstMaxBy (fun c : Candidate => c.days) cs with
  | none => exact absurd ((firstMaxBy_eq_none_iff _ _).mp hm) hcs_ne
  | some m =>
    obtain ⟨pre, post, heq, hpre, hpost⟩ := firstMaxBy_split (fun c : Candidate => c.days) cs m hm
    exact ⟨pre, m, post, by rw [recommended_eq_firstMaxBy, ← hcs, hm], heq, hpre, hpost⟩

/-- A last-used mapping with no spot ever used. -/
def luNever : String → Option Int := fun _ => none

/-- Witness for `recommended_tie_break` at the spec's example: two never-used
spots A and B in that order; the recommendation is A. -/
theorem recommended_tie_break_witness :
    ∃ (pre : List Candidate) (m : Candidate) (post : List Candidate),
      recommended [spotA, spotB] luNever 0 = some m ∧
      ([spotA, spotB].map fun s =>
          Candidate.mk s (daysAgoFromISO 0 (luNever s.id))) = pre ++ m :: post ∧
      (∀ c ∈ pre, c.days < m.days) ∧ ∀ c ∈ post, c.days ≤ m.days :=
  recommended_tie_break [spotA, spotB] luNever 0 (by decide)

/-! ## Day bucketing (scheduler `logsByDay`, dashboard `dosesByDay`, health `entriesByDay`) -/

/-- The local calendar day of a timestamp under a fixed UTC offset `tz` (in
milliseconds).  This models the day key `toYMD(new Date(iso))`: with a fixed
offset (no DST), two timestamps produce the same local `YYYY-MM-DD` string
exactly when they have the same floor-divided day number. -/
def dayOf (tz t : Int) : Int := (t + tz).fdiv dayMs

/-- Milliseconds since local midnight: the time-of-day of a timestamp under
the fixed offset `tz`. -/
def timeOfDay (tz t : Int) : Int := (t + tz).fmod dayMs

/-- Dose frequency (source: `type Frequency` on the scheduler page). -/
inductive Frequency
  | daily
  | weekly
  | twiceWeekly
  | threeTimesWeekly
deriving DecidableEq, Repr

/-- A dose log entry (source: `type DoseLog` on the scheduler page and the
dashboard).  The ISO string fields `doseDateTime` and `createdAt` are modelled
by their epoch-millisecond values. -/
structure DoseLog where
  id : Int
  routineId : String
  routineName : String
  amountMg : String
  frequency : Frequency
  doseDateTime : Int
  createdAt : Int
deriving DecidableEq, Repr

/-- Exercise intensity (source: `type Intensity` on the health page). -/
inductive Intensity
  | low
  | med
  | high
deriving DecidableEq, Repr

/-- A health check-in entry (source: `type HealthEntry` on the health page).
The ISO string fields `dateTimeISO` and `createdAtISO` are modelled by their
epoch-millisecond values. -/
structure HealthEntry where
  id : Int
  dateTimeISO : Int
  createdAtISO : Int
  weightKg : Option String
  restingHr : Option String
  bpSys : Option String
  bpDia : Option String
  waistCm : Option String
  hipsCm : Option String
  chestCm : Option String
  exerciseType : Option String
  exerciseMinutes : Option String
  exerciseIntensity : Option Intensity
  notes : Option String
deriving DecidableEq, Repr

/-- One iteration of the bucketing loop
`if (!map[key]) map[key] = []; map[key].push(x);` over a plain JS object used
as a map: push `x` onto the bucket for `key`, creating the bucket on first
sight.  The object is modelled as an association list in key-insertion order,
which is how JS enumerates the string keys `Object.keys` yields for
`YYYY-MM-DD`-shaped (non-index) keys. -/
def bucketsInsert (key : Int) (x : α) : List (Int × List α) → List (Int × List α)
  | [] => [(key, [x])]
  | (k, xs) :: rest =>
    if k = key then (k, xs ++ [x]) :: rest else (k, xs) :: bucketsInsert key x rest

/-- The `for (const x of l) { ... map[key].push(x) }` grouping loop. -/
def groupByKey (keyOf : α → Int) (l : List α) : List (Int × List α) :=
  l.foldl (fun acc x => bucketsInsert (keyOf x) x acc) []

/-- Source (scheduler page):
```
const logsByDay = useMemo(() => {
  const map: Record<string, DoseLog[]> = {};
  for (const l of logs) {
    const key = toYMD(new Date(l.doseDateTime));
    if (!map[key]) map[key] = [];
    map[key].push(l);
  }
  for (const key of Object.keys(map)) {
    map[key].sort((a, b) => new Date(a.doseDateTime).getTime() - new Date(b.doseDateTime).getTime());
  }
  return map;
}, [logs]);
```
Group by local day, then sort each bucket ascending by timestamp. -/
def logsByDay (tz : Int) (logs : List DoseLog) : List (Int × List DoseLog) :=
  (groupByKey (fun l => dayOf tz l.doseDateTime) logs).map fun p =>
    (p.1, jsSort (fun a b => a.doseDateTime - b.doseDateTime) p.2)

/-- Source: `dosesByDay` from the dashboard (`src/app/page.tsx`): the identical
grouping of dose logs by `ymdFromISO(d.doseDateTime)` with each bucket sorted
ascending by timestamp. -/
def dosesByDay (tz : Int) (logs : List DoseLog) : List (Int × List DoseLog) :=
  (groupByKey (fun l => dayOf tz l.doseDateTime) logs).map fun p =>
    (p.1, jsSort (fun a b => a.doseDateTime - b.doseDateTime) p.2)

/-- Source (health page):
```
const entriesByDay = useMemo(() => {
  const map: Record<string, HealthEntry[]> = {};
  for (const e of entries) {
    const key = toYMD(new Date(e.dateTimeISO));
    if (!map[key]) map[key] = [];
    map[key].push(e);
  }
  for (const k of Object.keys(map)) {
    map[k].sort((a, b) => new Date(b.dateTimeISO).getTime() - new Date(a.dateTimeISO).getTime());
  }
  return map;
}, [entries]);
```
Note the comparator `b - a`: each bucket is sorted DESCENDING by timestamp. -/
def entriesByDay (tz : Int) (entries : List HealthEntry) : List (Int × List HealthEntry) :=
  (groupByKey (fun e => dayOf tz e.dateTimeISO) entries).map fun p =>
    (p.1, jsSort (fun a b => b.dateTimeISO - a.dateTimeISO) p.2)

theorem insertCmp_perm (cmp : α → α → Int) (x : α) (l : List α) :
    (insertCmp cmp x l).Perm (x :: l) := by
  induction l with
  | nil => exact List.Perm.refl _
  | cons y ys ih =>
    simp only [insertCmp]
    split
    · exact List.Perm.refl _
    · exact (List.Perm.cons y ih).trans (List.Perm.swap x y ys)

theorem jsSort_perm (cmp : α → α → Int) (l : List α) : (jsSort cmp l).Perm l := by
  induction l with
  | nil => exact List.Perm.refl _
  | cons x xs ih =>
    exact (insertCmp_perm cmp x _).trans (List.Perm.cons x ih)

theorem mem_jsSort (cmp : α → α → Int) (l : List α) (a : α) :
    a ∈ jsSort cmp l ↔ a ∈ l :=
  (jsSort_perm cmp l).mem_iff

theorem insertCmp_pairwise_asc (key : α → Int) (x : α) (l : List α)
    (hl : l.Pairwise fun a b => key a ≤ key b) :
    (insertCmp (fun a b => key a - key b) x l).Pairwise fun a b => key a ≤ key b := by
  induction l with
  | nil => simp [insertCmp]
  | cons y ys ih =>
    simp only [insertCmp]
    rcases List.pairwise_cons.mp hl with ⟨hy, hys⟩
    split
    · next hc =>
      refine List.pairwise_cons.mpr ⟨?_, hl⟩
      intro b hb
      rcases List.mem_cons.mp hb with rfl | hmem
      · omega
      · have := hy b hmem
        omega
    · next hc =>
      refine List.pairwise_cons.mpr ⟨?_, ih hys⟩
      intro b hb
      rcases List.mem_cons.mp (((insertCmp_perm _ x ys).mem_iff).mp hb) with rfl | hmem
      · omega
      · exact hy b hmem

theorem jsSort_pairwise_asc (key : α → Int) (l : List α) :
    (jsSort (fun a b => key a - key b) l).Pairwise fun a b => key a ≤ key b := by
  induction l with
  | nil => simp [jsSort]
  | cons x xs ih => exact insertCmp_pairwise_asc key x _ ih

theorem insertCmp_pairwise_desc (key : α → Int) (x : α) (l : List α)
    (hl : l.Pairwise fun a b => key b ≤ key a) :
    (insertCmp (fun a b => key b - key a) x l).Pairwise fun a b => key b ≤ key a := by
  induction l with
  | nil => simp [insertCmp]
  | cons y ys ih =>
    simp only [insertCmp]
    rcases List.pairwise_cons.mp hl with ⟨hy, hys⟩
    split
    · next hc =>
      refine List.pairwise_cons.mpr ⟨?_, hl⟩
      intro b hb
      rcases List.mem_cons.mp hb with rfl | hmem
      · omega
      · have := hy b hmem
        omega
    · next hc =>
      refine List.pairwise_cons.mpr ⟨?_, ih hys⟩
      intro b hb
      rcases List.mem_cons.mp (((insertCmp_perm _ x ys).mem_iff).mp hb) with rfl | hmem
      · omega
      · exact hy b hmem

theorem jsSort_pairwise_desc (key : α → Int) (l : List α) :
    (jsSort (fun a b => key b - key a) l).Pairwise fun a b => key b ≤ key a := by
  induction l with
  | nil => simp [jsSort]
  | cons x xs ih => exact insertCmp_pairwise_desc key x _ ih

/-- Every record in a bucket produced by the grouping loop carries that
bucket's day key. -/
theorem bucketsInsert_keyed (keyOf : α → Int) (k : Int) (y : α)
    (acc : List (Int × List α)) (hacc : ∀ p ∈ acc, ∀ x ∈ p.2, keyOf x = p.1)
    (hy : keyOf y = k) :
    ∀ p ∈ bucketsInsert k y acc, ∀ x ∈ p.2, keyOf x = p.1 := by
  induction acc with
  | nil =>
    intro p hp x hx
    rcases List.mem_singleton.mp hp with rfl
    rcases List.mem_singleton.mp hx with rfl
    exact hy
  | cons q rest ih =>
    obtain ⟨kq, xsq⟩ := q
    simp only [bucketsInsert]
    split
    · next hk =>
      intro p hp x hx
      rcases List.mem_cons.mp hp with rfl | hmem
      · rcases List.mem_append.mp hx with hmem2 | hsing
        · exact hacc _ (List.mem_cons_self _ _) x hmem2
        · rcases List.mem_singleton.mp hsing with rfl
          rw [hy, hk]
      · exact hacc p (List.mem_cons_of_mem _ hmem) x hx
    · next hk =>
      intro p hp x hx
      rcases List.mem_cons.mp hp with rfl | hmem
      · exact hacc _ (List.mem_cons_self _ _) x hx
      · exact ih (fun p hp => hacc p (List.mem_cons_of_mem _ hp)) p hmem x hx

theorem groupByKey_keyed (keyOf : α → Int) (l : List α) :
    ∀ p ∈ groupByKey keyOf l, ∀ x ∈ p.2, keyOf x = p.1 := by
  suffices h : ∀ (l : List α) (acc : List (Int × List α)),
      (∀ p ∈ acc, ∀ x ∈ p.2, keyOf x = p.1) →
      ∀ p ∈ l.foldl (fun acc x => bucketsInsert (keyOf x) x acc) acc,
        ∀ x ∈ p.2, keyOf x = p.1 by
    exact h l [] (by intro p hp; cases hp)
  intro l
  induction l with
  | nil => intro acc hacc; exact hacc
  | cons x xs ih =>
    intro acc hacc
    exact ih _ (bucketsInsert_keyed keyOf (keyOf x) x acc hacc rfl)

/-- Pushing a record into the bucket map adds exactly that record to the
multiset of bucketed records. -/
theorem bucketsInsert_join_perm (k : Int) (y : α) (acc : List (Int × List α)) :
    ((bucketsInsert k y acc).map Prod.snd).flatten.Perm (y :: (acc.map Prod.snd).flatten) := by
  induction acc with
  | nil => simp [bucketsInsert]
  | cons q rest ih =>
    obtain ⟨kq, xsq⟩ := q
    simp only [bucketsInsert]
    split
    · simp only [List.map_cons, List.flatten_cons]
      rw [List.append_assoc, List.singleton_append]
      exact List.perm_middle
    · simp only [List.map_cons, List.flatten_cons]
      exact (ih.append_left xsq).trans List.perm_middle

/-- No record is lost or duplicated by the grouping loop: the concatenation
of all buckets is a permutation of the input. -/
theorem groupByKey_join_perm (keyOf : α → Int) (l : List α) :
    ((groupByKey keyOf l).map Prod.snd).flatten.Perm l := by
  suffices h : ∀ (l : List α) (acc : List (Int × List α)),
      ((l.foldl (fun acc x => bucketsInsert (keyOf x) x acc) acc).map Prod.snd).flatten.Perm
        ((acc.map Prod.snd).flatten ++ l) by
    simpa using h l []
  intro l
  induction l with
  | nil => intro acc; simp
  | cons x xs ih =>
    intro acc
    refine (ih (bucketsInsert (keyOf x) x acc)).trans ?_
    refine (List.Perm.append_right xs (bucketsInsert_join_perm (keyOf x) x acc)).trans ?_
    rw [List.cons_append]
    exact List.perm_middle.symm

/-- Per-bucket sorting does not change the multiset of bucketed records. -/
theorem map_sort_join_perm (cmp : α → α → Int) (bs : List (Int × List α)) :
    (((bs.map fun p => (p.1, jsSort cmp p.2)).map Prod.snd).flatten).Perm
      ((bs.map Prod.snd).flatten) := by
  induction bs with
  | nil => simp
  | cons q rest ih =>
    simp only [List.map_cons, List.flatten_cons]
    exact List.Perm.append (jsSort_perm cmp q.2) ih

/-- Within one local day (fixed offset, no DST), later timestamps have later
times of day. -/
theorem timeOfDay_mono (tz a b : Int) (hday : dayOf tz a = dayOf tz b)
    (hab : a ≤ b) : timeOfDay tz a ≤ timeOfDay tz b := by
  have ha := Int.fmod_add_fdiv (a + tz) dayMs
  have hb := Int.fmod_add_fdiv (b + tz) dayMs
  have hday2 : (a + tz).fdiv dayMs = (b + tz).fdiv dayMs := hday
  rw [hday2] at ha
  show (a + tz).fmod dayMs ≤ (b + tz).fmod dayMs
  linarith

/-- C3 (amended): the scheduler's `logsByDay` (and likewise the dashboard's
`dosesByDay`) sorts every day's bucket ascending by time-of-day, but the
health page's `entriesByDay` sorts every bucket DESCENDING by time-of-day
(newest first) — its comparator is `b - a`. -/
theorem byDay_bucket_order (tz : Int) (logs : List DoseLog)
    (entries : List HealthEntry) :
    (∀ p ∈ logsByDay tz logs,
      p.2.Pairwise fun a b => timeOfDay tz a.doseDateTime ≤ timeOfDay tz b.doseDateTime) ∧
    ∀ p ∈ entriesByDay tz entries,
      p.2.Pairwise fun a b => timeOfDay tz b.dateTimeISO ≤ timeOfDay tz a.dateTimeISO := by
  constructor
  · intro p hp
    rcases List.mem_map.mp hp with ⟨q, hq, rfl⟩
    have hkeyed := groupByKey_keyed (fun l => dayOf tz l.doseDateTime) logs q hq
    have hs := jsSort_pairwise_asc (fun l : DoseLog => l.doseDateTime) q.2
    refine List.Pairwise.imp_of_mem ?_ hs
    intro a b ha hb hle
    have hda : dayOf tz a.doseDateTime = q.1 :=
      hkeyed a ((mem_jsSort _ _ _).mp ha)
    have hdb : dayOf tz b.doseDateTime = q.1 :=
      hkeyed b ((mem_jsSort _ _ _).mp hb)
    exact timeOfDay_mono tz _ _ (hda.trans hdb.symm) hle
  · intro p hp
    rcases List.mem_map.mp hp with ⟨q, hq, rfl⟩
    have hkeyed := groupByKey_keyed (fun e => dayOf tz e.dateTimeISO) entries q hq
    have hs := jsSort_pairwise_desc (fun e : HealthEntry => e.dateTimeISO) q.2
    refine List.Pairwise.imp_of_mem ?_ hs
    intro a b ha hb hle
    have hda : dayOf tz a.dateTimeISO = q.1 :=
      hkeyed a ((mem_jsSort _ _ _).mp ha)
    have hdb : dayOf tz b.dateTimeISO = q.1 :=
      hkeyed b ((mem_jsSort _ _ _).mp hb)
    exact timeOfDay_mono tz _ _ (hdb.trans hda.symm) hle

/-- A health entry with only an id and a timestamp, used for instantiation. -/
def healthStub (i t : Int) : HealthEntry :=
  ⟨i, t, 0, none, none, none, none, none, none, none, none, none, none, none⟩

/-- C3 counterexample: two health entries on the same day, logged in
chronological order (times of day 0ms and 1000ms); `entriesByDay` buckets
them newest first — `[later, earlier]` — so its sub-sequence is NOT sorted
ascending by time-of-day. -/
theorem entriesByDay_not_ascending :
    entriesByDay 0 [healthStub 1 0, healthStub 2 1000] =
      [(0, [healthStub 2 1000, healthStub 1 0])] ∧
    timeOfDay 0 (healthStub 1 0).dateTimeISO <
      timeOfDay 0 (healthStub 2 1000).dateTimeISO := by
  constructor
  · decide
  · decide

/-- C4: day bucketing neither loses nor duplicates records: the ids of the
concatenation of all buckets are a permutation of the input's ids, for both
the scheduler's `logsByDay` and the dashboard's `dosesByDay`. -/
theorem byDay_ids_perm (tz : Int) (logs : List DoseLog) :
    ((((logsByDay tz logs).map Prod.snd).flatten).map DoseLog.id).Perm
      (logs.map DoseLog.id) ∧
    ((((dosesByDay tz logs).map Prod.snd).flatten).map DoseLog.id).Perm
      (logs.map DoseLog.id) := by
  constructor
  · exact ((map_sort_join_perm _ _).trans (groupByKey_join_perm _ logs)).map DoseLog.id
  · exact ((map_sort_join_perm _ _).trans (groupByKey_join_perm _ logs)).map DoseLog.id

/-! ## Calendar grid (`calendarCells` on the scheduler, health and dashboard pages) -/

/-- Source: `pad2` is `String(n).padStart(2, "0")`. -/
def pad2 (n : Nat) : String := if n < 10 then "0" ++ toString n else toString n

/-- Monday-first weekday index (source: `mondayIndex(daySun0) = (daySun0 + 6) % 7`). -/
def mondayIndex (daySun0 : Nat) : Nat := (daySun0 + 6) % 7

/-- A calendar grid cell: a blank placeholder, or a day cell carrying its
`YYYY-MM-DD` key and 1-based day number (source: `{ ymd?, dayNum? }`). -/
inductive Cell
  | blank
  | day (ymd : String) (dayNum : Nat)
deriving DecidableEq, Repr

/-- Source (scheduler page; the health page and dashboard repeat it verbatim):
```
const offset = mondayIndex(start.getDay());
const daysInMonth = end.getDate();
const totalCells = Math.ceil((offset + daysInMonth) / 7) * 7;
const cells = [];
for (let i = 0; i < totalCells; i++) {
  const dayNum = i - offset + 1;
  if (dayNum >= 1 && dayNum <= daysInMonth) {
    cells.push({ ymd: `${y}-${pad2(m)}-${pad2(dayNum)}`, dayNum });
  } else {
    cells.push({});
  }
}
```
`weekdaySun0` is `startOfMonth(calendarMonth).getDay()` and `daysInMonth` is
`endOfMonth(calendarMonth).getDate()`.  `Math.ceil(x / 7) * 7` on these small
exact integers equals `((x + 6) / 7) * 7` in natural-number arithmetic. -/
def calendarCells (year month weekdaySun0 daysInMonth : Nat) : List Cell :=
  let offset := mondayIndex weekdaySun0
  let totalCells := ((offset + daysInMonth + 6) / 7) * 7
  (List.range totalCells).map fun (i : Nat) =>
    let dayNum : Int := (i : Int) - offset + 1
    if 1 ≤ dayNum ∧ dayNum ≤ daysInMonth then
      Cell.day (toString year ++ "-" ++ pad2 month ++ "-" ++ pad2 dayNum.toNat)
        dayNum.toNat
    else Cell.blank

/-- C5: the calendar grid has exactly `7 * ceil((leadingBlanks + daysInMonth) / 7)`
cells with `leadingBlanks = (weekdayOfFirst + 6) % 7` (in natural-number
arithmetic `ceil(x / 7) = (x + 6) / 7`); the count is a multiple of 7, and it
is large enough for every leading blank and day of the month, so no trailing
partial week is omitted. -/
theorem calendarCells_count (year month weekdaySun0 daysInMonth : Nat) :
    (calendarCells year month weekdaySun0 daysInMonth).length =
      7 * ((mondayIndex weekdaySun0 + daysInMonth + 6) / 7) ∧
    7 ∣ (calendarCells year month weekdaySun0 daysInMonth).length ∧
    mondayIndex weekdaySun0 + daysInMonth ≤
      (calendarCells year month weekdaySun0 daysInMonth).length := by
  have hlen : (calendarCells year month weekdaySun0 daysInMonth).length =
      ((mondayIndex weekdaySun0 + daysInMonth + 6) / 7) * 7 := by
    unfold calendarCells
    simp only [List.length_map, List.length_range]
  refine ⟨?_, ?_, ?_⟩ <;> rw [hlen] <;> omega

/-! ## Persisted-state loading (health, rotation and scheduler load effects) -/

/-- Outcome of a successful `JSON.parse` of a stored collection: an array of
well-shaped records, or some other JSON value. -/
inductive JsonVal (α : Type)
  | arr (xs : List α)
  | notArr
deriving DecidableEq, Repr

/-- A stored raw value as seen through `JSON.parse`: `none` when
`localStorage.getItem` returned `null` (or an empty, falsy string);
`some (Except.error ())` when the stored string is malformed and
`JSON.parse` throws; `some (Except.ok v)` when it parses to `v`. -/
def StoredVal (α : Type) : Type := Option (Except Unit (JsonVal α))

/-- Source (health page load effect):
```
const raw = localStorage.getItem(STORAGE_KEY);
if (raw) {
  try {
    const parsed = JSON.parse(raw);
    if (Array.isArray(parsed)) setEntries(parsed);
  } catch {
    // ignore
  }
}
```
State starts as `[]`; a parse throw is caught and a non-array result fails
the `Array.isArray` guard, so both leave the empty collection in place. -/
def healthLoad (stored : StoredVal HealthEntry) : List HealthEntry :=
  match stored with
  | none => []
  | some (Except.error _) => []
  | some (Except.ok (JsonVal.arr xs)) => xs
  | some (Except.ok JsonVal.notArr) => []

/-- An injection log entry (source: `type InjectionLog` on the rotation
page).  `injectedAtISO` and `createdAtISO` stay raw strings here because
`lastUsedBySpot` manipulates the stored string itself, including its JS
falsiness. -/
structure InjectionLog where
  id : Int
  spotId : String
  spotLabel : String
  view : View
  routineId : String
  routineName : String
  injectedAtISO : String
  doseMg : Option String
  notes : Option String
  createdAtISO : String
deriving DecidableEq, Repr

/-- Source (rotation page load effect):
```
const sl = localStorage.getItem(STORAGE_KEYS.logs);
if (sl) setLogs(JSON.parse(sl));
```
No `try`/`catch` and no shape check: a malformed stored string makes
`JSON.parse` throw out of the effect (`Except.error`), and a non-array parse
result is stored into state as-is. -/
def rotationLoadLogs (stored : StoredVal InjectionLog) : Except Unit (JsonVal InjectionLog) :=
  match stored with
  | none => Except.ok (JsonVal.arr [])
  | some r => r

/-- Source (scheduler page load effect), identical in shape to the rotation
page's: `if (sl) setLogs(JSON.parse(sl));` with no `try`/`catch`. -/
def schedulerLoadLogs (stored : StoredVal DoseLog) : Except Unit (JsonVal DoseLog) :=
  match stored with
  | none => Except.ok (JsonVal.arr [])
  | some r => r

/-- C6 (amended): only the health page's load guards malformed data — it
always produces a collection, empty unless the stored value parses to an
array; the rotation and scheduler loads re-raise a `JSON.parse` failure. -/
theorem load_fallback_behavior :
    (∀ stored : StoredVal HealthEntry,
      healthLoad stored = [] ∨
        ∃ xs, stored = some (Except.ok (JsonVal.arr xs)) ∧ healthLoad stored = xs) ∧
    rotationLoadLogs (some (Except.error ())) = Except.error () ∧
    schedulerLoadLogs (some (Except.error ())) = Except.error () := by
  refine ⟨?_, rfl, rfl⟩
  intro stored
  match stored with
  | none => exact Or.inl rfl
  | some (Except.error _) => exact Or.inl rfl
  | some (Except.ok (JsonVal.arr xs)) => exact Or.inr ⟨xs, rfl, rfl⟩
  | some (Except.ok JsonVal.notArr) => exact Or.inl rfl

/-- C6 counterexample: on a malformed stored string the rotation page's load
propagates the `JSON.parse` exception instead of falling back to the empty
collection (while the health page's load does fall back). -/
theorem rotationLoad_crashes_on_malformed :
    rotationLoadLogs (some (Except.error ())) = Except.error () ∧
    rotationLoadLogs (some (Except.error ())) ≠ Except.ok (JsonVal.arr []) ∧
    healthLoad (some (Except.error ())) = [] := by
  exact ⟨rfl, by intro h; exact Except.noConfusion h, rfl⟩

/-! ## Dose amount validation (scheduler `logMainForm` and `pickCustomDose`) -/

/-- Executable model of `String.prototype.trim`: strip whitespace from both
ends (written over the character list so the kernel can evaluate it). -/
def jsTrim (s : String) : String :=
  ⟨((s.data.dropWhile Char.isWhitespace).reverse.dropWhile Char.isWhitespace).reverse⟩

/-- Split a character list at every `'.'`, the separator of the dose regex. -/
def splitOnDot : List Char → List (List Char)
  | [] => [[]]
  | c :: rest =>
    if c = '.' then [] :: splitOnDot rest
    else
      match splitOnDot rest with
      | [] => [[c]]
      | h :: t => (c :: h) :: t

/-- A non-empty all-digit character run, the `\d+` of the validation regex. -/
def isDigits (cs : List Char) : Bool := !cs.isEmpty && cs.all (fun c => c.isDigit)

/-- Source (scheduler page):
```
function isValidMgText(s: string) {
  return /^(\d+(\.\d+)?)$/.test(s.trim());
}
```
The trimmed text must be digits, optionally followed by a dot and more
digits — equivalently, splitting at dots yields one or two all-digit runs. -/
def isValidMgText (s : String) : Bool :=
  match splitOnDot (jsTrim s).data with
  | [a] => isDigits a
  | [a, b] => isDigits a && isDigits b
  | _ => false

/-- A user-editable treatment course (source: `type Routine` on the
scheduler page; the rotation page's `Routine` omits `reconstitutedOn`). -/
structure Routine where
  id : String
  name : String
  reconstitutedOn : Option String
deriving DecidableEq, Repr

/-- The default routine catalog (source: `const DEFAULT_ROUTINES`). -/
def DEFAULT_ROUTINES : List Routine :=
  [ ⟨"r1", "Routine 1", none⟩,
    ⟨"r2", "Routine 2", none⟩,
    ⟨"r3", "Routine 3", none⟩,
    ⟨"r4", "Routine 4", none⟩,
    ⟨"r5", "Routine 5", none⟩ ]

/-- Source (scheduler page):
```
function addLogForRoutine(dateTimeLocal: string, mg: string, routineId: string) {
  const amount = mg.trim();
  if (!amount) return;
  const r = routineById[routineId] ?? routines[0];
  const item: DoseLog = { id: Date.now(), routineId: r.id, routineName: r.name,
    amountMg: amount, frequency, doseDateTime: ..., createdAt: ... };
  setLogs((prev) => [item, ...prev]);
}
```
`now` is `Date.now()` (also the id and creation time), `dateTime` the parsed
`dateTimeLocal`, `freq` the frequency state, and `r` the routine resolved by
`routineById[routineId] ?? routines[0]`. -/
def addLogForRoutine (now dateTime : Int) (freq : Frequency) (mg : String)
    (r : Routine) (logs : List DoseLog) : List DoseLog :=
  let amount := jsTrim mg
  if amount = "" then logs
  else ⟨now, r.id, r.name, amount, freq, dateTime, now⟩ :: logs

/-- Source (scheduler page):
```
function logMainForm() {
  const mg = customAmountMg.trim() ? customAmountMg.trim() : amountMg;
  if (!mg) return;
  addLogForRoutine(doseDateTimeLocal, mg, selectedRoutineId);
  ...
}
```
Note: no numeric validation — only emptiness is checked. -/
def logMainForm (now dateTime : Int) (freq : Frequency)
    (customAmountMg amountMg : String) (r : Routine) (logs : List DoseLog) :
    List DoseLog :=
  let mg := if jsTrim customAmountMg ≠ "" then jsTrim customAmountMg else amountMg
  if mg = "" then logs
  else addLogForRoutine now dateTime freq mg r logs

/-- Source (scheduler page):
```
function pickCustomDose() {
  if (!dayCustomMg.trim()) return;
  if (!isValidMgText(dayCustomMg)) return;
  setPendingMg(dayCustomMg.trim());
  ...
}
```
Returns the pending dose text it would set, `none` when it bails out. -/
def pickCustomDose (dayCustomMg : String) : Option String :=
  if jsTrim dayCustomMg = "" then none
  else if !isValidMgText dayCustomMg then none
  else some (jsTrim dayCustomMg)

/-- C7 (amended): the day-sheet custom-dose path (`pickCustomDose`) is a
no-op on any text failing the numeric check, while the main form
(`logMainForm`) only rejects an empty dose text. -/
theorem dose_validation_no_op :
    (∀ s : String, isValidMgText s = false → pickCustomDose s = none) ∧
    ∀ (now dateTime : Int) (freq : Frequency) (r : Routine)
      (logs : List DoseLog) (custom amount : String),
      jsTrim custom = "" → amount = "" →
      logMainForm now dateTime freq custom amount r logs = logs := by
  constructor
  · intro s h
    unfold pickCustomDose
    by_cases he : jsTrim s = ""
    · rw [if_pos he]
    · rw [if_neg he, if_pos (by rw [h]; rfl)]
  · intro now dateTime freq r logs custom amount hc ha
    unfold logMainForm
    simp [hc, ha]

/-- Witness for `dose_validation_no_op`: the non-numeric text `"abc"` is
rejected by the day-sheet path, and an empty main form saves nothing. -/
theorem dose_validation_no_op_witness :
    pickCustomDose "abc" = none ∧
    logMainForm 0 0 Frequency.weekly "" "" ⟨"r1", "Routine 1", none⟩ [] = [] :=
  ⟨dose_validation_no_op.1 "abc" (by decide),
   dose_validation_no_op.2 0 0 Frequency.weekly ⟨"r1", "Routine 1", none⟩ [] "" ""
     (by decide) rfl⟩

/-- C7 counterexample: submitting the main form with the non-numeric custom
amount `"abc"` is NOT a no-op — a log entry with `amountMg = "abc"` is
appended, because `logMainForm` never calls `isValidMgText`. -/
theorem logMainForm_saves_non_numeric :
    isValidMgText "abc" = false ∧
    logMainForm 0 0 Frequency.weekly "abc" "0.25" ⟨"r1", "Routine 1", none⟩ [] =
      [⟨0, "r1", "Routine 1", "abc", Frequency.weekly, 0, 0⟩] := by
  constructor
  · decide
  · decide

/-! ## Routine deletion (scheduler `deleteRoutine`) and its cascade -/

/-- The scheduler page's persistent collections: the shared routine catalog
(`ds_routines_v4`) and its dose logs (`ds_logs_v4`).  The two selection ids
the source also updates are transient view state and are not modelled. -/
structure SchedulerState where
  routines : List Routine
  logs : List DoseLog
deriving DecidableEq, Repr

/-- Source (scheduler page):
```
function deleteRoutine(id: string) {
  if (routines.length <= 1) return;
  const remaining = routines.filter((r) => r.id !== id);
  setRoutines(remaining);
  ...
  setLogs((prev) => prev.filter((l) => l.routineId !== id));
}
```
-/
def deleteRoutine (id : String) (st : SchedulerState) : SchedulerState :=
  if st.routines.length ≤ 1 then st
  else
    ⟨st.routines.filter (fun r => r.id != id),
     st.logs.filter (fun l => l.routineId != id)⟩

/-- Routine deletion as seen by the whole app: the rotation page's injection
log collection (`rt_logs_v1`) is a separate store that the scheduler page
never reads or writes, so deleting a routine leaves it untouched — no code
path anywhere deletes injection logs when a routine is deleted. -/
def deleteRoutineApp (id : String) (st : SchedulerState)
    (injLogs : List InjectionLog) : SchedulerState × List InjectionLog :=
  (deleteRoutine id st, injLogs)

/-- C8 (amended): with more than one routine present, deleting a routine
removes it and every DOSE log referencing it, but the injection log
collection is untouched — the cascade covers only the scheduler's own logs,
not all log collections that reference routines. -/
theorem deleteRoutine_cascade (id : String) (st : SchedulerState)
    (injLogs : List InjectionLog) (h : 1 < st.routines.length) :
    (∀ r ∈ (deleteRoutineApp id st injLogs).1.routines, r.id ≠ id) ∧
    (∀ l ∈ (deleteRoutineApp id st injLogs).1.logs, l.routineId ≠ id) ∧
    (deleteRoutineApp id st injLogs).2 = injLogs := by
  unfold deleteRoutineApp deleteRoutine
  rw [if_neg (by omega)]
  refine ⟨?_, ?_, rfl⟩
  · intro r hr
    have hp := List.of_mem_filter hr
    simpa using hp
  · intro l hl
    have hp := List.of_mem_filter hl
    simpa using hp

/-- An injection log with only a spot id, a timestamp string and the
referencing routine id `"r1"` filled in, used for instantiation. -/
def injStub (sid iso : String) : InjectionLog :=
  ⟨0, sid, "", View.front, "r1", "", iso, none, none, ""⟩

/-- Witness for `deleteRoutine_cascade` on the default catalog. -/
theorem deleteRoutine_cascade_witness :
    (∀ r ∈ (deleteRoutineApp "r1" ⟨DEFAULT_ROUTINES, []⟩ []).1.routines, r.id ≠ "r1") ∧
    (∀ l ∈ (deleteRoutineApp "r1" ⟨DEFAULT_ROUTINES, []⟩ []).1.logs, l.routineId ≠ "r1") ∧
    (deleteRoutineApp "r1" ⟨DEFAULT_ROUTINES, []⟩ []).2 = [] :=
  deleteRoutine_cascade "r1" ⟨DEFAULT_ROUTINES, []⟩ [] (by decide)

/-- C8 counterexample: deleting routine `"r1"` (which succeeds — no routine
with that id remains) leaves the injection log that references `"r1"` in
place, so NOT every log entry referencing the deleted routine is deleted. -/
theorem deleteRoutine_keeps_injection_logs :
    (deleteRoutineApp "r1" ⟨DEFAULT_ROUTINES, []⟩ [injStub "s" "T"]).2 =
      [injStub "s" "T"] ∧
    (injStub "s" "T").routineId = "r1" ∧
    (deleteRoutineApp "r1" ⟨DEFAULT_ROUTINES, []⟩ [injStub "s" "T"]).1.routines =
      [⟨"r2", "Routine 2", none⟩, ⟨"r3", "Routine 3", none⟩,
       ⟨"r4", "Routine 4", none⟩, ⟨"r5", "Routine 5", none⟩] := by
  refine ⟨rfl, rfl, by decide⟩

/-! ## `lastUsedBySpot` (rotation page) -/

/-- JS falsiness of the stored map value `m[spotId]`: `undefined` (absent)
and the empty string are falsy; every other string is truthy. -/
def jsFalsyStr (v : Option String) : Bool :=
  match v with
  | none => true
  | some s => s == ""

/-- One iteration of the loop in `lastUsedBySpot`:
`if (!m[l.spotId]) m[l.spotId] = l.injectedAtISO;`. -/
def lastUsedStep (m : String → Option String) (l : InjectionLog) :
    String → Option String :=
  if jsFalsyStr (m l.spotId) then
    fun k => if k = l.spotId then some l.injectedAtISO else m k
  else m

/-- Source (rotation page):
```
const lastUsedBySpot = useMemo(() => {
  // logs are stored newest-first; first time we see spotId is latest use
  const m: Record<string, string> = {};
  for (const l of logs) {
    if (!m[l.spotId]) m[l.spotId] = l.injectedAtISO;
  }
  return m;
}, [logs]);
```
-/
def lastUsedBySpot (logs : List InjectionLog) : String → Option String :=
  logs.foldl lastUsedStep (fun _ => none)

theorem lastUsed_foldl (logs : List InjectionLog) (m : String → Option String)
    (sid : String) (h : ∀ l ∈ logs, l.injectedAtISO ≠ "") :
    (logs.foldl lastUsedStep m) sid =
      if jsFalsyStr (m sid) then
        ((logs.find? (fun l => l.spotId == sid)).map
          (fun l => some l.injectedAtISO)).getD (m sid)
      else m sid := by
  induction logs generalizing m with
  | nil =>
    simp only [List.foldl_nil, List.find?_nil, Option.map_none, Option.getD_none]
    split <;> rfl
  | cons l ls ih =>
    have hl : l.injectedAtISO ≠ "" := h l (List.mem_cons_self _ _)
    have hls : ∀ x ∈ ls, x.injectedAtISO ≠ "" :=
      fun x hx => h x (List.mem_cons_of_mem _ hx)
    simp only [List.foldl_cons, List.find?_cons]
    rw [ih (lastUsedStep m l) hls]
    by_cases hf : jsFalsyStr (m l.spotId) = true
    · by_cases hsid : sid = l.spotId
      · have hstep : lastUsedStep m l sid = some l.injectedAtISO := by
          unfold lastUsedStep
          rw [if_pos hf]
          simp [hsid]
        rw [hstep]
        have hnotf : jsFalsyStr (some l.injectedAtISO) = false := by
          simp only [jsFalsyStr]
          exact beq_eq_false_iff_ne.mpr hl
        rw [hnotf]
        have hfind : (l.spotId == sid) = true := beq_iff_eq.mpr hsid.symm
        rw [hsid]
        simp [hf]
      · have hstep : lastUsedStep m l sid = m sid := by
          unfold lastUsedStep
          rw [if_pos hf]
          simp [hsid]
        rw [hstep]
        have hfind : (l.spotId == sid) = false :=
          beq_eq_false_iff_ne.mpr (fun he => hsid he.symm)
        simp [hfind]
    · have hstep : lastUsedStep m l = m := by
        unfold lastUsedStep
        rw [if_neg hf]
      rw [hstep]
      by_cases hsid : sid = l.spotId
      · subst hsid
        simp [hf]
      · have hfind : (l.spotId == sid) = false :=
          beq_eq_false_iff_ne.mpr (fun he => hsid he.symm)
        simp [hfind]

/-- C9 (amended): when every stored entry's `injectedAtISO` is non-empty, the
last-used timestamp for a spot is the `injectedAtISO` of the FIRST entry in
the stored list whose `spotId` matches — purely positional, with no timestamp
comparison, so for a list not ordered newest-first it need not be the most
recent use.  (An empty-string timestamp would instead be skipped by the JS
falsiness check, which is what the counterexample exhibits.) -/
theorem lastUsedBySpot_first_match (logs : List InjectionLog) (sid : String)
    (h : ∀ l ∈ logs, l.injectedAtISO ≠ "") :
    lastUsedBySpot logs sid =
      (logs.find? (fun l => l.spotId == sid)).map (fun l => l.injectedAtISO) := by
  unfold lastUsedBySpot
  rw [lastUsed_foldl logs (fun _ => none) sid h]
  simp only [jsFalsyStr, if_pos]
  cases logs.find? (fun l => l.spotId == sid) with
  | none => rfl
  | some l => rfl

/-- Witness for `lastUsedBySpot_first_match`: two logs for spot `"s"` in
order; the first one's timestamp wins. -/
theorem lastUsedBySpot_first_match_witness :
    lastUsedBySpot [injStub "s" "A", injStub "s" "B"] "s" =
      ([injStub "s" "A", injStub "s" "B"].find?
        (fun l => l.spotId == "s")).map (fun l => l.injectedAtISO) :=
  lastUsedBySpot_first_match [injStub "s" "A", injStub "s" "B"] "s" (by decide)

/-- C9 counterexample: when the first matching entry's `injectedAtISO` is the
empty string, the loop's falsy check `!m[l.spotId]` treats the stored value
as unset and a LATER entry overwrites it: the computed timestamp is not the
first matching element's `injectedAtISO`. -/
theorem lastUsedBySpot_skips_empty_string :
    ([injStub "s" "", injStub "s" "T"].find? (fun l => l.spotId == "s")) =
      some (injStub "s" "") ∧
    (injStub "s" "").injectedAtISO = "" ∧
    lastUsedBySpot [injStub "s" "", injStub "s" "T"] "s" = some "T" := by
  refine ⟨by decide, rfl, by decide⟩

/-! ## Routine catalog operations (C10) -/

/-- Source (scheduler page):
```
function addRoutine() {
  const newId = `r${Date.now()}`;
  const nextNum = routines.length + 1;
  setRoutines((prev) => [...prev, { id: newId, name: `Routine ${nextNum}` }]);
  ...
}
```
`now` is the `Date.now()` value at the click. -/
def addRoutine (now : Nat) (routines : List Routine) : List Routine :=
  routines ++ [⟨"r" ++ toString now, "Routine " ++ toString (routines.length + 1), none⟩]

/-- A user action on the routine catalog. -/
inductive RoutineOp
  | add (now : Nat)
  | del (id : String)
deriving DecidableEq, Repr

/-- Apply one catalog operation: `addRoutine` appends; `deleteRoutine` (its
effect on the routine collection) returns unchanged when
`routines.length <= 1` and otherwise filters out the id. -/
def applyRoutineOp (routines : List Routine) : RoutineOp → List Routine
  | RoutineOp.add now => addRoutine now routines
  | RoutineOp.del id =>
    if routines.length ≤ 1 then routines
    else routines.filter (fun r => r.id != id)

/-- C10 (amended): `deleteRoutine` is a no-op on the routine collection when
at most one routine remains; and every operation preserves non-emptiness
PROVIDED the routine ids are pairwise distinct — the guard checks only the
count, so with duplicated ids (possible when two `addRoutine` clicks share a
`Date.now()` value) a delete can remove several routines at once. -/
theorem routines_stay_nonempty :
    (∀ (routines : List Routine) (id : String), routines.length ≤ 1 →
      applyRoutineOp routines (RoutineOp.del id) = routines) ∧
    ∀ (routines : List Routine) (op : RoutineOp), routines ≠ [] →
      (routines.map Routine.id).Nodup → applyRoutineOp routines op ≠ [] := by
  constructor
  · intro routines id hle
    simp only [applyRoutineOp]
    rw [if_pos hle]
  · intro routines op hne hnd
    cases op with
    | add now =>
      simp only [applyRoutineOp, addRoutine]
      simp
    | del id =>
      simp only [applyRoutineOp]
      by_cases hle : routines.length ≤ 1
      · rw [if_pos hle]; exact hne
      · rw [if_neg hle]
        intro hfil
        cases routines with
        | nil => exact hne rfl
        | cons r1 rest1 =>
          cases rest1 with
          | nil => exact hle (by simp)
          | cons r2 rest2 =>
            have hall : ∀ r ∈ r1 :: r2 :: rest2, ¬((r.id != id) = true) := by
              intro r hr hp
              exact absurd hfil (List.ne_nil_of_mem (List.mem_filter.mpr ⟨hr, hp⟩))
            have h1 : r1.id = id := by
              have hb := hall r1 (List.mem_cons_self _ _)
              simpa using hb
            have h2 : r2.id = id := by
              have hb := hall r2 (List.mem_cons_of_mem _ (List.mem_cons_self _ _))
              simpa using hb
            simp only [List.map_cons] at hnd
            rcases List.nodup_cons.mp hnd with ⟨hhd, _⟩
            apply hhd
            rw [h1.trans h2.symm]
            exact List.mem_map.mpr ⟨r2, List.mem_cons_self _ _, rfl⟩

/-- Witness for `routines_stay_nonempty`: a singleton catalog survives its
own deletion unchanged, and deleting `"r1"` from the distinct-id default
catalog leaves it non-empty. -/
theorem routines_stay_nonempty_witness :
    applyRoutineOp [⟨"r1", "Routine 1", none⟩] (RoutineOp.del "r1") =
      [⟨"r1", "Routine 1", none⟩] ∧
    applyRoutineOp DEFAULT_ROUTINES (RoutineOp.del "r1") ≠ [] :=
  ⟨routines_stay_nonempty.1 [⟨"r1", "Routine 1", none⟩] "r1" (by decide),
   routines_stay_nonempty.2 DEFAULT_ROUTINES (RoutineOp.del "r1") (by decide) (by decide)⟩

/-- C10 counterexample: two `addRoutine` clicks sharing `Date.now() = 7`
create two routines with the duplicate id `"r7"`; deleting the five default
routines and then `"r7"` passes the `length <= 1` guard (two routines remain)
yet filters BOTH away, leaving the routine collection empty. -/
theorem routines_emptied_by_duplicate_ids :
    List.foldl applyRoutineOp DEFAULT_ROUTINES
      [RoutineOp.add 7, RoutineOp.add 7, RoutineOp.del "r1", RoutineOp.del "r2",
       RoutineOp.del "r3", RoutineOp.del "r4", RoutineOp.del "r5",
       RoutineOp.del "r7"] = [] := by
  decide

end DoseApp
